import Mathlib

/-!
Verification of the attendance subsystem of the HRMS repository.

The development shallowly embeds the code that the claims concern:
- the status computation of `handleSubmitAttendance` (src/src/pages/EmployeeDashboard.tsx),
- the geofence check of `handleOpenCamera` (same file),
- the create/upsert route `POST /attendance` (src/server/src/routes/attendance.ts)
  together with its zod request validation,
- the storage uniqueness constraint `UNIQUE (employee_id, date)` of the attendance
  table (schema file),
- the report pipeline `reportData` / `handleGenerate` of the AttendanceReport page.

Times of day are embedded as hour/minute pairs: the code passes times as
"HH:MM" strings, which are in bijection with such pairs; the string form is kept
only where the claims are about string validation (the zod schema).
-/

namespace Attendance

/-- A time of day, the parsed form of an "HH:MM" string. -/
structure Time where
  hours : Nat
  minutes : Nat
deriving DecidableEq, Repr

/-- Total minutes since midnight, the quantity the JS Date arithmetic measures. -/
def Time.toMin (t : Time) : Nat := 60 * t.hours + t.minutes

/-- The attendance status enum of the database and of the zod schema. -/
inductive Status where
  | present
  | absent
  | late
  | halfDay
  | leave
deriving DecidableEq, Repr

/-- The configured expected-arrival threshold, 08:11, hardcoded in
`handleSubmitAttendance` (EmployeeDashboard.tsx line 306). -/
def expectedArrival : Time := ⟨8, 11⟩

/-- Embeds `Math.floor((checkInTime.getTime() - expectedTime.getTime()) / 60000)`
(EmployeeDashboard.tsx line 307).  Both Date values sit on 2000-01-01 at a whole
minute, so the millisecond difference is exactly (minutes difference) * 60000 and
the floored quotient is exactly the signed difference in minutes. -/
def minutesLate (checkIn expected : Time) : Int :=
  (checkIn.toMin : Int) - (expected.toMin : Int)

/-- The Status Classifier: the status computation of `handleSubmitAttendance`
(EmployeeDashboard.tsx lines 302-311) together with the convention that a missing
check-in means `absent` (the dashboard renders a missing record as status
`absent`, line 158).  `late` exactly when the computed minutes-late is
strictly positive, else `present`. -/
def classify (checkIn : Option Time) (expected : Time) : Status :=
  match checkIn with
  | none => .absent
  | some t => if 0 < minutesLate t expected then .late else .present

/-- C4: `classify` returns `absent` with no check-in; otherwise it returns `late`
exactly when the floored minutes-late is strictly positive and `present`
otherwise (a check-in exactly at the threshold is `present`); the three
spec examples hold at threshold 08:11, and `halfDay` and `leave` are never
produced. -/
theorem c4_classify_spec :
    (∀ e : Time, classify none e = Status.absent)
    ∧ (∀ (t e : Time),
        classify (some t) e =
          if 0 < minutesLate t e then Status.late else Status.present)
    ∧ classify (some ⟨8, 11⟩) expectedArrival = Status.present
    ∧ (classify (some ⟨8, 12⟩) expectedArrival = Status.late
        ∧ minutesLate ⟨8, 12⟩ expectedArrival = 1)
    ∧ classify (some ⟨7, 59⟩) expectedArrival = Status.present
    ∧ (∀ (c : Option Time) (e : Time),
        classify c e ≠ Status.halfDay ∧ classify c e ≠ Status.leave) := by
  refine ⟨fun e => rfl, fun t e => rfl, by decide, by decide, by decide, ?_⟩
  intro c e
  cases c with
  | none => exact ⟨by simp [classify], by simp [classify]⟩
  | some t =>
    simp only [classify]
    by_cases h : 0 < minutesLate t e <;> simp [h]

/-! ## Attendance record store

Embeds the attendance table row (schema: attendance table with
UNIQUE (employee_id, date)) and the `POST /attendance` route
(src/server/src/routes/attendance.ts lines 110-215). -/

/-- One row of the attendance table. `createdAt` and `updatedAt` are abstract
timestamps (`Nat`); the route passes `new Date().toISOString()`, modelled by an
explicit `now` argument to the write operations. -/
structure AttendanceRecord where
  employeeId : String
  employeeName : String
  date : String
  checkIn : Option Time
  checkOut : Option Time
  status : Status
  notes : Option String
  checkInImage : Option String
  checkOutImage : Option String
  createdAt : Nat
  updatedAt : Nat
deriving DecidableEq, Repr

/-- The attendance table, a list of rows in insertion order. -/
abbrev Store := List AttendanceRecord

/-- The row predicate of the existence query: employee_id and date both match. -/
def matchKey (emp date : String) (r : AttendanceRecord) : Bool :=
  r.employeeId == emp && r.date == date

/-- The existence query of the POST route (lines 133-138): select the record
with this employee_id and date. -/
def findRecord (s : Store) (emp date : String) : Option AttendanceRecord :=
  s.find? (matchKey emp date)

/-- A validated request body of `POST /attendance` (the output of
`attendanceSchema.safeParse`), with the "HH:MM" time strings in parsed form.
`none` for an optional field means the field was absent from the body (the
dashboard client never sends an explicit null). -/
structure Payload where
  employeeId : String
  employeeName : String
  date : String
  checkIn : Option Time
  checkOut : Option Time
  status : Status
  notes : Option String
  checkInImage : Option String
  checkOutImage : Option String
deriving DecidableEq, Repr

/-- The `value || null` coercion the route applies to optional text fields:
an empty string is stored as null. -/
def orNull (s : String) : Option String :=
  if s = "" then none else some s

/-- The update branch of the POST route (lines 143-167): always writes `status`
and `updated_at`; writes each optional field only when it was present in the
request body; never touches `employee_id`, `employee_name`, `date`,
`created_at`. -/
def applyUpdate (p : Payload) (now : Nat) (r : AttendanceRecord) : AttendanceRecord :=
  { r with
    status := p.status
    updatedAt := now
    checkIn := match p.checkIn with | some t => some t | none => r.checkIn
    checkOut := match p.checkOut with | some t => some t | none => r.checkOut
    notes := match p.notes with | some v => orNull v | none => r.notes
    checkInImage := match p.checkInImage with | some v => orNull v | none => r.checkInImage
    checkOutImage := match p.checkOutImage with | some v => orNull v | none => r.checkOutImage }

/-- Replace the first record matching (emp, date) — the route updates by the id
of the single selected record. -/
def updateFirst (s : Store) (emp date : String)
    (f : AttendanceRecord → AttendanceRecord) : Store :=
  match s with
  | [] => []
  | r :: rs =>
    if matchKey emp date r then f r :: rs
    else r :: updateFirst rs emp date f

/-- The insert branch of the POST route (lines 168-192): a fresh row from the
request body. -/
def insertRecord (p : Payload) (now : Nat) : AttendanceRecord :=
  { employeeId := p.employeeId
    employeeName := p.employeeName
    date := p.date
    checkIn := p.checkIn
    checkOut := p.checkOut
    status := p.status
    notes := match p.notes with | some v => orNull v | none => none
    checkInImage := match p.checkInImage with | some v => orNull v | none => none
    checkOutImage := match p.checkOutImage with | some v => orNull v | none => none
    createdAt := now
    updatedAt := now }

/-- The create/upsert operation of `POST /attendance` on a validated body
(lines 131-192): look up the record for (employeeId, date); update it if found,
insert a new row otherwise. -/
def postAttendance (s : Store) (p : Payload) (now : Nat) : Store :=
  match findRecord s p.employeeId p.date with
  | some _ => updateFirst s p.employeeId p.date (applyUpdate p now)
  | none => s ++ [insertRecord p now]

/-! ## Capture workflow submission

Embeds `handleSubmitAttendance` (EmployeeDashboard.tsx lines 279-371) and the
guard implemented by the disabled conditions of the Sign In / Sign Out buttons
(lines 659-686), which are the only entry points of the capture workflow. -/

/-- The two capture kinds of the dashboard (`activeCapture`). -/
inductive EventKind where
  | checkIn
  | checkOut
deriving DecidableEq, Repr

/-- The status the client computes before submitting (lines 302-311):
classified from the check-in time for a checkIn, the constant 'present'
for a checkOut. -/
def submittedStatus (kind : EventKind) (t : Time) : Status :=
  match kind with
  | .checkIn => classify (some t) expectedArrival
  | .checkOut => .present

/-- The request body the client builds for one capture event
(lines 313-326): only the named event field and its image are present. -/
def submitPayload (emp name date : String) (kind : EventKind) (t : Time)
    (img : String) : Payload :=
  { employeeId := emp
    employeeName := name
    date := date
    checkIn := if kind = .checkIn then some t else none
    checkOut := if kind = .checkOut then some t else none
    status := submittedStatus kind t
    notes := none
    checkInImage := if kind = .checkIn then some img else none
    checkOutImage := if kind = .checkOut then some img else none }

/-- One capture event submitted end to end: the client builds the payload and
the server performs the upsert. -/
def recordEvent (s : Store) (emp name date : String) (kind : EventKind)
    (t : Time) (img : String) (now : Nat) : Store :=
  postAttendance s (submitPayload emp name date kind t img) now

/-- The spec's taxonomy for the two workflow-level rejections. -/
inductive SubmitError where
  | duplicateEvent
  | outOfOrderEvent
deriving DecidableEq, Repr

/-- The workflow guard, read off the disabled conditions of the two buttons
(lines 659-686): Sign In is unavailable when a check-in is already recorded
for the selected date; Sign Out is unavailable when no check-in exists yet or
a check-out is already recorded. -/
def submitGuard (view : Option AttendanceRecord) (kind : EventKind) :
    Option SubmitError :=
  match kind with
  | .checkIn =>
    match view with
    | some r => if r.checkIn.isSome then some .duplicateEvent else none
    | none => none
  | .checkOut =>
    match view with
    | none => some .outOfOrderEvent
    | some r =>
      if r.checkIn.isNone then some .outOfOrderEvent
      else if r.checkOut.isSome then some .duplicateEvent
      else none

/-- A guarded submission: the client's view of the day's record (the GET by
employeeId and date, line 148) feeds the guard; only a permitted event reaches
the store. Returns the resulting store and the rejection, if any. -/
def attemptEvent (s : Store) (emp name date : String) (kind : EventKind)
    (t : Time) (img : String) (now : Nat) : Store × Option SubmitError :=
  match submitGuard (findRecord s emp date) kind with
  | some e => (s, some e)
  | none => (recordEvent s emp name date kind t img now, none)

/-! ## Store lemmas -/

/-- Number of attendance rows carrying one (employeeId, date) key. -/
def countKey (s : Store) (emp date : String) : Nat :=
  (s.filter (matchKey emp date)).length

theorem matchKey_applyUpdate (p : Payload) (now : Nat) (emp date : String)
    (r : AttendanceRecord) :
    matchKey emp date (applyUpdate p now r) = matchKey emp date r := rfl

theorem length_updateFirst (s : Store) (emp date : String)
    (f : AttendanceRecord → AttendanceRecord) :
    (updateFirst s emp date f).length = s.length := by
  induction s with
  | nil => rfl
  | cons r rs ih =>
    simp only [updateFirst]
    cases hm : matchKey emp date r <;> simp [ih]

theorem countKey_updateFirst (s : Store) (emp date e d : String)
    (f : AttendanceRecord → AttendanceRecord)
    (hf : ∀ r, matchKey e d (f r) = matchKey e d r) :
    countKey (updateFirst s emp date f) e d = countKey s e d := by
  induction s with
  | nil => rfl
  | cons r rs ih =>
    simp only [updateFirst]
    cases hm : matchKey emp date r
    · simp only [Bool.false_eq_true, if_false]
      simp only [countKey, List.filter_cons] at ih ⊢
      cases h2 : matchKey e d r <;> simp [h2, ih]
    · simp only [if_true]
      simp only [countKey, List.filter_cons, hf r]
      cases h2 : matchKey e d r <;> simp [h2]

theorem countKey_append_singleton (s : Store) (rec : AttendanceRecord)
    (e d : String) :
    countKey (s ++ [rec]) e d =
      countKey s e d + (if matchKey e d rec then 1 else 0) := by
  simp only [countKey, List.filter_append]
  cases hm : matchKey e d rec <;> simp [hm]

theorem countKey_eq_zero_of_findRecord_none (s : Store) (emp date : String)
    (h : findRecord s emp date = none) : countKey s emp date = 0 := by
  induction s with
  | nil => rfl
  | cons r rs ih =>
    simp only [findRecord] at h ih
    cases hm : matchKey emp date r
    · rw [List.find?_cons_of_neg _ (by simp [hm])] at h
      simp only [countKey, List.filter_cons, hm]
      simpa [countKey] using ih h
    · rw [List.find?_cons_of_pos _ hm] at h
      exact absurd h (by simp)

theorem findRecord_append_singleton_none (s : Store) (rec : AttendanceRecord)
    (e d : String) (h : findRecord s e d = none) :
    findRecord (s ++ [rec]) e d =
      if matchKey e d rec then some rec else none := by
  induction s with
  | nil =>
    simp only [findRecord, List.nil_append, List.find?]
    cases hm : matchKey e d rec <;> simp [hm]
  | cons r rs ih =>
    simp only [findRecord] at h ih ⊢
    cases hm : matchKey e d r
    · rw [List.find?_cons_of_neg _ (by simp [hm])] at h
      simp only [List.cons_append]
      rw [List.find?_cons_of_neg _ (by simp [hm])]
      exact ih h
    · rw [List.find?_cons_of_pos _ hm] at h
      exact absurd h (by simp)

theorem findRecord_updateFirst (s : Store) (e d : String)
    (f : AttendanceRecord → AttendanceRecord)
    (hf : ∀ r, matchKey e d (f r) = matchKey e d r) :
    findRecord (updateFirst s e d f) e d = (findRecord s e d).map f := by
  induction s with
  | nil => rfl
  | cons r rs ih =>
    simp only [updateFirst]
    cases hm : matchKey e d r
    · simp only [Bool.false_eq_true, if_false, findRecord] at ih ⊢
      rw [List.find?_cons_of_neg _ (by simp [hm]),
        List.find?_cons_of_neg _ (by simp [hm])]
      exact ih
    · simp only [if_true, findRecord]
      rw [List.find?_cons_of_pos _ (by simp [hf r, hm]),
        List.find?_cons_of_pos _ hm]
      rfl

theorem countKey_postAttendance_le (s : Store) (p : Payload) (now : Nat)
    (hInv : ∀ e d, countKey s e d ≤ 1) (e d : String) :
    countKey (postAttendance s p now) e d ≤ 1 := by
  unfold postAttendance
  cases hf : findRecord s p.employeeId p.date with
  | some r =>
    rw [countKey_updateFirst s p.employeeId p.date e d _
      (fun r => matchKey_applyUpdate p now e d r)]
    exact hInv e d
  | none =>
    rw [countKey_append_singleton]
    cases hm : matchKey e d (insertRecord p now)
    · simpa using hInv e d
    · have hm' : (p.employeeId == e && p.date == d) = true := hm
      simp only [Bool.and_eq_true, beq_iff_eq] at hm'
      obtain ⟨he, hd⟩ := hm'
      subst he; subst hd
      rw [countKey_eq_zero_of_findRecord_none s p.employeeId p.date hf]
      simp

/-- One capture submission through the workflow: inputs of `recordEvent`. -/
structure Submission where
  emp : String
  name : String
  date : String
  kind : EventKind
  t : Time
  img : String
  now : Nat

/-- A finite sequence of check-in/check-out submissions applied to a store. -/
def runSubmissions (ops : List Submission) (s : Store) : Store :=
  ops.foldl (fun st o => recordEvent st o.emp o.name o.date o.kind o.t o.img o.now) s

theorem countKey_runSubmissions_le (ops : List Submission) (s : Store)
    (hInv : ∀ e d, countKey s e d ≤ 1) :
    ∀ e d, countKey (runSubmissions ops s) e d ≤ 1 := by
  induction ops generalizing s with
  | nil => exact hInv
  | cons o os ih =>
    exact ih _ (fun e d => countKey_postAttendance_le _ _ _ hInv e d)

/-- C6: after any finite sequence of check-in/check-out submissions through the
create/upsert interface, at most one record exists per (employeeId, date); and
one submission grows the store by one record exactly when no record for the
pair exists yet, otherwise it mutates in place and the store size is unchanged. -/
theorem c6_unique_per_key :
    (∀ (ops : List Submission) (emp date : String),
      countKey (runSubmissions ops []) emp date ≤ 1)
    ∧ (∀ (s : Store) (emp name date : String) (kind : EventKind) (t : Time)
        (img : String) (now : Nat),
      (recordEvent s emp name date kind t img now).length =
        if (findRecord s emp date).isSome then s.length else s.length + 1) := by
  constructor
  · intro ops emp date
    exact countKey_runSubmissions_le ops []
      (fun e d => by simp [countKey, List.filter_nil]) emp date
  · intro s emp name date kind t img now
    show (postAttendance s (submitPayload emp name date kind t img) now).length = _
    unfold postAttendance
    cases hf : findRecord s emp date with
    | some r => simp [submitPayload, hf, length_updateFirst]
    | none => simp [submitPayload, hf]

/-- C3: `recordEvent` on a pair with no existing record inserts a row carrying
only the named event field and its image; the status of a checkIn row is the
classifier applied to the check-in time, the status of a checkOut row is the
constant `present` (independent of the time, so never classifier-derived). -/
theorem c3_insert_branch :
    ∀ (s : Store) (emp name date : String) (t : Time) (img : String) (now : Nat),
      findRecord s emp date = none →
      (findRecord (recordEvent s emp name date .checkIn t img now) emp date =
        some { employeeId := emp, employeeName := name, date := date,
               checkIn := some t, checkOut := none,
               status := classify (some t) expectedArrival, notes := none,
               checkInImage := orNull img, checkOutImage := none,
               createdAt := now, updatedAt := now })
      ∧ (findRecord (recordEvent s emp name date .checkOut t img now) emp date =
        some { employeeId := emp, employeeName := name, date := date,
               checkIn := none, checkOut := some t,
               status := Status.present, notes := none,
               checkInImage := none, checkOutImage := orNull img,
               createdAt := now, updatedAt := now }) := by
  intro s emp name date t img now h
  constructor
  · show findRecord
      (postAttendance s (submitPayload emp name date .checkIn t img) now) emp date = _
    unfold postAttendance
    rw [show findRecord s (submitPayload emp name date .checkIn t img).employeeId
        (submitPayload emp name date .checkIn t img).date = none from h]
    rw [findRecord_append_singleton_none s _ emp date h]
    simp [matchKey, insertRecord, submitPayload, submittedStatus]
  · show findRecord
      (postAttendance s (submitPayload emp name date .checkOut t img) now) emp date = _
    unfold postAttendance
    rw [show findRecord s (submitPayload emp name date .checkOut t img).employeeId
        (submitPayload emp name date .checkOut t img).date = none from h]
    rw [findRecord_append_singleton_none s _ emp date h]
    simp [matchKey, insertRecord, submitPayload, submittedStatus]

/-- C3 witness: the checkIn conjunct at the empty store. -/
theorem c3_insert_branch_witness :
    findRecord (recordEvent [] "E1" "Ana" "2025-04-01" .checkIn ⟨8, 20⟩ "img" 7)
        "E1" "2025-04-01" =
      some { employeeId := "E1", employeeName := "Ana", date := "2025-04-01",
             checkIn := some ⟨8, 20⟩, checkOut := none,
             status := classify (some ⟨8, 20⟩) expectedArrival, notes := none,
             checkInImage := orNull "img", checkOutImage := none,
             createdAt := 7, updatedAt := 7 } :=
  (c3_insert_branch [] "E1" "Ana" "2025-04-01" ⟨8, 20⟩ "img" 7 rfl).1

/-- A day with a late check-in already recorded, used to exhibit the status
overwrite of the update branch. -/
def lateDayRecord : AttendanceRecord :=
  { employeeId := "E1", employeeName := "Ana", date := "2025-04-01",
    checkIn := some ⟨8, 30⟩, checkOut := none, status := Status.late,
    notes := none, checkInImage := some "img1", checkOutImage := none,
    createdAt := 0, updatedAt := 0 }

/-- C1 counterexample: recording the complementary checkOut on a record whose
status is `late` rewrites status to `present` — the update branch of the POST
route always writes `status` (line 146) and the client submits status
'present' for a checkOut, so status is not among the untouched fields. -/
theorem c1_counterexample :
    ((findRecord
        (recordEvent [lateDayRecord] "E1" "Ana" "2025-04-01" .checkOut
          ⟨17, 0⟩ "img2" 5)
        "E1" "2025-04-01").map AttendanceRecord.status = some Status.present)
    ∧ lateDayRecord.status = Status.late := by
  constructor
  · rfl
  · rfl

/-- C1 amended: the update write on an existing record changes exactly the
named event field, its image, `updatedAt` and `status` (set to the submitted
status: `present` for a checkOut, the classifier result for a checkIn); the
other event's time and image, employeeName, date, notes and createdAt are
untouched — a checkout never blanks an existing checkin or vice versa. -/
theorem c1_update_frame :
    ∀ (s : Store) (emp name date : String) (t : Time) (img : String) (now : Nat)
      (r : AttendanceRecord),
      findRecord s emp date = some r →
      (findRecord (recordEvent s emp name date .checkOut t img now) emp date =
        some { r with checkOut := some t, checkOutImage := orNull img,
                      status := Status.present, updatedAt := now })
      ∧ (findRecord (recordEvent s emp name date .checkIn t img now) emp date =
        some { r with checkIn := some t, checkInImage := orNull img,
                      status := classify (some t) expectedArrival,
                      updatedAt := now }) := by
  intro s emp name date t img now r h
  constructor
  · show findRecord
      (postAttendance s (submitPayload emp name date .checkOut t img) now) emp date = _
    unfold postAttendance
    rw [show findRecord s (submitPayload emp name date .checkOut t img).employeeId
        (submitPayload emp name date .checkOut t img).date = some r from h]
    rw [show updateFirst s (submitPayload emp name date .checkOut t img).employeeId
          (submitPayload emp name date .checkOut t img).date
          (applyUpdate (submitPayload emp name date .checkOut t img) now)
        = updateFirst s emp date
            (applyUpdate (submitPayload emp name date .checkOut t img) now) from rfl]
    rw [findRecord_updateFirst s emp date _
      (fun x => matchKey_applyUpdate _ now emp date x), h]
    rfl
  · show findRecord
      (postAttendance s (submitPayload emp name date .checkIn t img) now) emp date = _
    unfold postAttendance
    rw [show findRecord s (submitPayload emp name date .checkIn t img).employeeId
        (submitPayload emp name date .checkIn t img).date = some r from h]
    rw [show updateFirst s (submitPayload emp name date .checkIn t img).employeeId
          (submitPayload emp name date .checkIn t img).date
          (applyUpdate (submitPayload emp name date .checkIn t img) now)
        = updateFirst s emp date
            (applyUpdate (submitPayload emp name date .checkIn t img) now) from rfl]
    rw [findRecord_updateFirst s emp date _
      (fun x => matchKey_applyUpdate _ now emp date x), h]
    rfl

/-- C1 witness: the frame theorem instantiated at `lateDayRecord`. -/
theorem c1_update_frame_witness :
    findRecord (recordEvent [lateDayRecord] "E1" "Ana" "2025-04-01" .checkOut
        ⟨17, 0⟩ "img2" 5) "E1" "2025-04-01" =
      some { lateDayRecord with
              checkOut := some (Time.mk 17 0),
              checkOutImage := orNull "img2", status := Status.present,
              updatedAt := 5 } :=
  (c1_update_frame [lateDayRecord] "E1" "Ana" "2025-04-01" ⟨17, 0⟩ "img2" 5
    lateDayRecord rfl).1

/-- C2: the workflow guard rejects a checkOut when no check-in exists yet for
the date (OutOfOrderEvent) and rejects re-submitting an event kind already
recorded (DuplicateEvent); in every rejected case the returned store is the
input store, so the originally recorded time and image are unaltered. -/
theorem c2_submit_guards :
    ∀ (s : Store) (emp name date : String) (t : Time) (img : String) (now : Nat),
      (findRecord s emp date = none →
        attemptEvent s emp name date .checkOut t img now =
          (s, some SubmitError.outOfOrderEvent))
      ∧ (∀ r, findRecord s emp date = some r → r.checkIn = none →
        attemptEvent s emp name date .checkOut t img now =
          (s, some SubmitError.outOfOrderEvent))
      ∧ (∀ r, findRecord s emp date = some r → r.checkIn.isSome →
        attemptEvent s emp name date .checkIn t img now =
          (s, some SubmitError.duplicateEvent))
      ∧ (∀ r, findRecord s emp date = some r → r.checkIn.isSome →
          r.checkOut.isSome →
        attemptEvent s emp name date .checkOut t img now =
          (s, some SubmitError.duplicateEvent)) := by
  intro s emp name date t img now
  refine ⟨?_, ?_, ?_, ?_⟩
  · intro h
    unfold attemptEvent
    rw [h]
    rfl
  · intro r h hc
    unfold attemptEvent
    rw [h]
    simp [submitGuard, hc]
  · intro r h hc
    unfold attemptEvent
    rw [h]
    simp [submitGuard, hc]
  · intro r h hc ho
    unfold attemptEvent
    rw [h]
    simp [submitGuard, Option.isNone_iff_eq_none, hc, ho]
    cases hx : r.checkIn with
    | none => rw [hx] at hc; exact absurd hc (by simp)
    | some v => simp [hx]

/-- C2 witness: out-of-order checkOut on an empty store, and duplicate checkIn
on a store already holding a check-in for the day. -/
theorem c2_submit_guards_witness :
    attemptEvent [] "E1" "Ana" "2025-04-01" .checkOut ⟨17, 0⟩ "i" 1 =
      ([], some SubmitError.outOfOrderEvent)
    ∧ attemptEvent [lateDayRecord] "E1" "Ana" "2025-04-01" .checkIn ⟨8, 40⟩ "i" 1 =
      ([lateDayRecord], some SubmitError.duplicateEvent) :=
  ⟨(c2_submit_guards [] "E1" "Ana" "2025-04-01" ⟨17, 0⟩ "i" 1).1 rfl,
   (c2_submit_guards [lateDayRecord] "E1" "Ana" "2025-04-01" ⟨8, 40⟩ "i" 1).2.2.1
     lateDayRecord rfl (by decide)⟩

/-! ## The POST route as check-then-write (C9)

The route performs a standalone existence query (lines 132-138) and then, in a
separate statement, either an update or an insert (lines 143-192).  The two
phases are modelled separately so that interleavings of two concurrent requests
can be expressed; the insert write is subject to the table constraint
UNIQUE (employee_id, date) (schema line 306). -/

/-- The two branches of the POST route. -/
inductive UpsertPath where
  | insertPath
  | updatePath
deriving DecidableEq, Repr

/-- Phase 1: the standalone existence check of the route. -/
def checkPhase (s : Store) (emp date : String) : Bool :=
  (findRecord s emp date).isSome

/-- The branch the route selects from the phase-1 answer (line 143). -/
def chosenPath (sawExisting : Bool) : UpsertPath :=
  if sawExisting then .updatePath else .insertPath

/-- Phase 2: the separate write, executed against the store as it stands at
write time. An insert for a key that meanwhile gained a row violates the
UNIQUE (employee_id, date) constraint: the write fails and the table is
unchanged. Returns the store and whether the write succeeded. -/
def writePhase (s : Store) (p : Payload) (now : Nat) (sawExisting : Bool) :
    Store × Bool :=
  match chosenPath sawExisting with
  | .updatePath => (updateFirst s p.employeeId p.date (applyUpdate p now), true)
  | .insertPath =>
    if (findRecord s p.employeeId p.date).isSome then (s, false)
    else (s ++ [insertRecord p now], true)

/-- Two concurrent requests under the interleaving check₁, check₂, write₁,
write₂: both existence checks read the initial store, then the writes land in
order. Returns (path₁, path₂, final store, write₁ ok, write₂ ok). -/
def racedUpsert (s : Store) (p q : Payload) (np nq : Nat) :
    UpsertPath × UpsertPath × Store × Bool × Bool :=
  let saw1 := checkPhase s p.employeeId p.date
  let saw2 := checkPhase s q.employeeId q.date
  let w1 := writePhase s p np saw1
  let w2 := writePhase w1.1 q nq saw2
  (chosenPath saw1, chosenPath saw2, w2.1, w1.2, w2.2)

/-- A first check-in submission for a day. -/
def firstEventPayloadA : Payload :=
  submitPayload "E1" "Ana" "2025-04-01" .checkIn ⟨8, 0⟩ "imgA"

/-- A concurrent first check-in submission for the same employee and day. -/
def firstEventPayloadB : Payload :=
  submitPayload "E1" "Ana" "2025-04-01" .checkIn ⟨8, 1⟩ "imgB"

/-- C9 counterexample: the upsert is an existence check followed by a separate
write, and under the interleaving check-check-write-write two concurrent first
events for the same employee and day BOTH take the insert path — refuting the
claim that a single atomic conditional write makes this impossible. -/
theorem c9_counterexample :
    (racedUpsert [] firstEventPayloadA firstEventPayloadB 1 2).1 =
      UpsertPath.insertPath
    ∧ (racedUpsert [] firstEventPayloadA firstEventPayloadB 1 2).2.1 =
      UpsertPath.insertPath := by
  exact ⟨rfl, rfl⟩

/-- C9 amended: under the racing interleaving, both first events take the
insert path; at most one record per pair still results, but only because the
second insert fails on the storage-level UNIQUE (employee_id, date) constraint,
not because the route's write is atomic. -/
theorem c9_check_then_write :
    ∀ (s : Store) (p q : Payload) (np nq : Nat),
      findRecord s p.employeeId p.date = none →
      q.employeeId = p.employeeId → q.date = p.date →
      (racedUpsert s p q np nq).1 = UpsertPath.insertPath
      ∧ (racedUpsert s p q np nq).2.1 = UpsertPath.insertPath
      ∧ (racedUpsert s p q np nq).2.2.2.2 = false
      ∧ countKey (racedUpsert s p q np nq).2.2.1 p.employeeId p.date = 1 := by
  intro s p q np nq h he hd
  have hq : findRecord s q.employeeId q.date = none := by rw [he, hd]; exact h
  have hsaw1 : checkPhase s p.employeeId p.date = false := by
    simp [checkPhase, h]
  have hsaw2 : checkPhase s q.employeeId q.date = false := by
    simp [checkPhase, hq]
  have hmatch : matchKey p.employeeId p.date (insertRecord p np) = true := by
    simp [matchKey, insertRecord]
  have hfind1 : findRecord (s ++ [insertRecord p np]) p.employeeId p.date =
      some (insertRecord p np) := by
    rw [findRecord_append_singleton_none s _ _ _ h, hmatch]
    simp
  have hw1 : writePhase s p np false = (s ++ [insertRecord p np], true) := by
    simp [writePhase, chosenPath, h]
  refine ⟨?_, ?_, ?_, ?_⟩
  · simp [racedUpsert, hsaw1, chosenPath]
  · simp [racedUpsert, hsaw2, chosenPath]
  · simp [racedUpsert, hsaw1, hsaw2, writePhase, chosenPath, he, hd, h, hfind1]
  · simp only [racedUpsert, hsaw1, hsaw2, hw1]
    simp only [writePhase, chosenPath, Bool.false_eq_true, if_false, he, hd,
      hfind1, Option.isSome_some, if_true]
    rw [countKey_append_singleton, hmatch,
      countKey_eq_zero_of_findRecord_none s _ _ h]
    simp

/-- C9 witness for the amended theorem: the two concrete concurrent first
events on the empty store. -/
theorem c9_check_then_write_witness :
    (racedUpsert [] firstEventPayloadA firstEventPayloadB 1 2).2.2.2.2 = false
    ∧ countKey (racedUpsert [] firstEventPayloadA firstEventPayloadB 1 2).2.2.1
        "E1" "2025-04-01" = 1 :=
  ⟨(c9_check_then_write [] firstEventPayloadA firstEventPayloadB 1 2
      rfl rfl rfl).2.2.1,
   (c9_check_then_write [] firstEventPayloadA firstEventPayloadB 1 2
      rfl rfl rfl).2.2.2⟩

/-! ## Request validation (C10)

Embeds the zod `attendanceSchema` (route lines 9-19) and the early 400 return
of the POST route (lines 110-117), which happens before any store access. -/

/-- The raw body of a POST /attendance request; `none` marks an absent optional
field. -/
structure RawRequest where
  employeeId : String
  employeeName : String
  date : String
  checkIn : Option String
  checkOut : Option String
  status : Status
  notes : Option String
  checkInImage : Option String
  checkOutImage : Option String
deriving DecidableEq, Repr

/-- The date regex of the schema: four digits, dash, two digits, dash, two
digits, anchored. -/
def matchesDatePattern (s : String) : Bool :=
  match s.toList with
  | [y1, y2, y3, y4, s1, m1, m2, s2, d1, d2] =>
    y1.isDigit && y2.isDigit && y3.isDigit && y4.isDigit && s1 == '-'
      && m1.isDigit && m2.isDigit && s2 == '-' && d1.isDigit && d2.isDigit
  | _ => false

/-- The time regex of the schema: two digits, colon, two digits, anchored. -/
def matchesTimePattern (s : String) : Bool :=
  match s.toList with
  | [h1, h2, s1, m1, m2] =>
    h1.isDigit && h2.isDigit && s1 == ':' && m1.isDigit && m2.isDigit
  | _ => false

/-- `attendanceSchema.safeParse` succeeds: non-empty employeeId and
employeeName, date matching the date pattern, and each present time field
matching the time pattern. -/
def validRequest (req : RawRequest) : Bool :=
  decide (1 ≤ req.employeeId.length) && decide (1 ≤ req.employeeName.length)
    && matchesDatePattern req.date
    && (match req.checkIn with | none => true | some v => matchesTimePattern v)
    && (match req.checkOut with | none => true | some v => matchesTimePattern v)

/-- Parse an "HH:MM" string; meaningful on strings matching the time pattern. -/
def parseTime (s : String) : Time :=
  match s.toList with
  | [h1, h2, _, m1, m2] =>
    ⟨10 * (h1.toNat - 48) + (h2.toNat - 48), 10 * (m1.toNat - 48) + (m2.toNat - 48)⟩
  | _ => ⟨0, 0⟩

/-- The validated body handed to the upsert. -/
def toPayload (req : RawRequest) : Payload :=
  { employeeId := req.employeeId
    employeeName := req.employeeName
    date := req.date
    checkIn := req.checkIn.map parseTime
    checkOut := req.checkOut.map parseTime
    status := req.status
    notes := req.notes
    checkInImage := req.checkInImage
    checkOutImage := req.checkOutImage }

/-- The POST route end to end: validation first; an invalid body returns 400
(`false`) before any read or write of the attendance table. -/
def handlePost (s : Store) (req : RawRequest) (now : Nat) : Store × Bool :=
  if validRequest req then (postAttendance s (toPayload req) now, true)
  else (s, false)

theorem validRequest_eq_true_iff (req : RawRequest) :
    validRequest req = true ↔
      (1 ≤ req.employeeId.length ∧ 1 ≤ req.employeeName.length
        ∧ matchesDatePattern req.date = true
        ∧ (∀ v, req.checkIn = some v → matchesTimePattern v = true)
        ∧ (∀ v, req.checkOut = some v → matchesTimePattern v = true)) := by
  unfold validRequest
  cases hc : req.checkIn <;> cases ho : req.checkOut <;>
    simp [Bool.and_eq_true, decide_eq_true_iff, and_assoc]

/-- C10: a request whose date does not match the YYYY-MM-DD pattern, or whose
present checkIn or checkOut does not match the HH:MM pattern, or whose
employeeId or employeeName is empty, is rejected and the store is returned
unchanged — no record is created or altered. -/
theorem c10_validation_rejects :
    ∀ (s : Store) (req : RawRequest) (now : Nat),
      (matchesDatePattern req.date = false
        ∨ (∃ v, req.checkIn = some v ∧ matchesTimePattern v = false)
        ∨ (∃ v, req.checkOut = some v ∧ matchesTimePattern v = false)
        ∨ req.employeeId = "" ∨ req.employeeName = "") →
      handlePost s req now = (s, false) := by
  intro s req now h
  have hv : validRequest req = false := by
    cases hval : validRequest req
    · rfl
    · exfalso
      have hs := (validRequest_eq_true_iff req).mp hval
      rcases h with h | ⟨v, hv1, hv2⟩ | ⟨v, hv1, hv2⟩ | h | h
      · rw [hs.2.2.1] at h; exact Bool.noConfusion h
      · rw [hs.2.2.2.1 v hv1] at hv2; exact Bool.noConfusion hv2
      · rw [hs.2.2.2.2 v hv1] at hv2; exact Bool.noConfusion hv2
      · have := hs.1; rw [h] at this; simp at this
      · have := hs.2.1; rw [h] at this; simp at this
  simp [handlePost, hv]

/-- C10 witness: a malformed date ("2025-4-1") is rejected on a store holding
one record, leaving the store as it was. -/
theorem c10_validation_rejects_witness :
    handlePost [lateDayRecord]
      { employeeId := "E1", employeeName := "Ana", date := "2025-4-1",
        checkIn := none, checkOut := none, status := Status.present,
        notes := none, checkInImage := none, checkOutImage := none } 3 =
      ([lateDayRecord], false) :=
  c10_validation_rejects [lateDayRecord] _ 3 (Or.inl (by decide))

/-! ## Geofence validator (C5)

Embeds the location gate of `handleOpenCamera` (EmployeeDashboard.tsx lines
184-244): the haversine computation with mean Earth radius 6371 km, the fixed
institutional anchor, the 0.1 km radius, and the early returns that skip the
camera on a missing fix or an out-of-radius fix. -/

/-- A latitude/longitude pair. -/
structure GeoCoordinate where
  latitude : ℝ
  longitude : ℝ

open Classical

/-- JS Math.atan2.  Only the right half-plane branch is exercised by the
haversine computation, whose second argument is a square root. -/
noncomputable def atan2 (y x : ℝ) : ℝ :=
  if 0 < x then Real.arctan (y / x)
  else if x < 0 ∧ 0 ≤ y then Real.arctan (y / x) + Real.pi
  else if x < 0 ∧ y < 0 then Real.arctan (y / x) - Real.pi
  else if x = 0 ∧ 0 < y then Real.pi / 2
  else if x = 0 ∧ y < 0 then -(Real.pi / 2)
  else 0

/-- The haversine distance of `handleOpenCamera` (lines 196-206), R = 6371 km. -/
noncomputable def haversineDistanceKm (user inst : GeoCoordinate) : ℝ :=
  let dLat := (inst.latitude - user.latitude) * Real.pi / 180
  let dLon := (inst.longitude - user.longitude) * Real.pi / 180
  let a := Real.sin (dLat / 2) * Real.sin (dLat / 2)
    + Real.cos (user.latitude * Real.pi / 180)
      * Real.cos (inst.latitude * Real.pi / 180)
      * Real.sin (dLon / 2) * Real.sin (dLon / 2)
  let c := 2 * atan2 (Real.sqrt a) (Real.sqrt (1 - a))
  6371 * c

/-- The institutional anchor hardcoded at lines 193-194. -/
noncomputable def institutionAnchor : GeoCoordinate := ⟨14.5995, 120.9842⟩

/-- The geofence radius of the check at line 208. -/
noncomputable def geofenceRadiusKm : ℝ := 0.1

/-- The capture is allowed unless the computed distance exceeds the radius
(the early return at line 208). -/
def presenceAllowed (device : GeoCoordinate) : Prop :=
  ¬ geofenceRadiusKm < haversineDistanceKm device institutionAnchor

/-- The dialog state handleOpenCamera manipulates (`cameraIsOpen`,
`activeCapture`, `capturedImage`). -/
structure CaptureState where
  cameraOpen : Bool
  activeCapture : Option EventKind
  capturedImage : Option String
deriving Repr

/-- The two failures of the location gate. -/
inductive CaptureError where
  | locationUnavailable
  | outsideGeofence
deriving DecidableEq, Repr

/-- `handleOpenCamera`: with no fix, or a fix outside the radius, it returns
before any state change and before the camera is requested; otherwise it opens
a capture session for the requested kind.  The attendance store is never
touched by this step. -/
noncomputable def handleOpenCamera (loc : Option GeoCoordinate)
    (kind : EventKind) (st : CaptureState) (s : Store) :
    CaptureState × Store × Option CaptureError :=
  match loc with
  | none => (st, s, some .locationUnavailable)
  | some device =>
    if geofenceRadiusKm < haversineDistanceKm device institutionAnchor then
      (st, s, some .outsideGeofence)
    else
      ({ cameraOpen := true, activeCapture := some kind, capturedImage := none },
        s, none)

/-- The spec's far device location, 0.0019 degrees of latitude from the anchor. -/
noncomputable def deviceFar : GeoCoordinate := ⟨14.6014, 120.9842⟩

theorem atan2_pos_x (y x : ℝ) (hx : 0 < x) : atan2 y x = Real.arctan (y / x) := by
  unfold atan2
  rw [if_pos hx]

theorem haversine_anchor_eq :
    haversineDistanceKm institutionAnchor institutionAnchor = 0 := by
  unfold haversineDistanceKm institutionAnchor
  simp only
  have h0 : ((14.5995 : ℝ) - 14.5995) * Real.pi / 180 = 0 := by ring
  have h1 : ((120.9842 : ℝ) - 120.9842) * Real.pi / 180 = 0 := by ring
  rw [h0, h1]
  simp only [zero_div, Real.sin_zero, mul_zero, zero_mul, add_zero, sub_zero]
  rw [Real.sqrt_zero, Real.sqrt_one]
  rw [atan2_pos_x _ _ one_pos]
  simp [Real.arctan_zero]

theorem theta_bounds :
    0 < 0.0019 * Real.pi / 360 ∧ 0.0019 * Real.pi / 360 < Real.pi / 2 := by
  constructor
  · positivity
  · nlinarith [Real.pi_pos]

theorem haversine_far_eq :
    haversineDistanceKm deviceFar institutionAnchor =
      6371 * (0.0019 * Real.pi / 180) := by
  unfold haversineDistanceKm deviceFar institutionAnchor
  simp only
  set θ : ℝ := 0.0019 * Real.pi / 360 with hθ
  have hθpos : 0 < θ := theta_bounds.1
  have hθlt : θ < Real.pi / 2 := theta_bounds.2
  have hθle : θ ≤ Real.pi := by nlinarith [Real.pi_pos]
  have hdlat : ((14.5995 : ℝ) - 14.6014) * Real.pi / 180 / 2 = -θ := by
    rw [hθ]; ring
  have hdlon : ((120.9842 : ℝ) - 120.9842) * Real.pi / 180 / 2 = 0 := by ring
  rw [hdlat, hdlon]
  rw [Real.sin_neg, Real.sin_zero]
  have hsin_nonneg : 0 ≤ Real.sin θ :=
    Real.sin_nonneg_of_nonneg_of_le_pi (le_of_lt hθpos) hθle
  have hcos_pos : 0 < Real.cos θ :=
    Real.cos_pos_of_mem_Ioo ⟨by linarith [Real.pi_pos], hθlt⟩
  have ha : -Real.sin θ * -Real.sin θ
      + Real.cos (14.6014 * Real.pi / 180) * Real.cos (14.5995 * Real.pi / 180)
        * 0 * 0 = Real.sin θ * Real.sin θ := by ring
  rw [ha]
  have hsq : Real.sin θ * Real.sin θ = Real.sin θ ^ 2 := by ring
  rw [hsq, Real.sqrt_sq hsin_nonneg]
  have hone : 1 - Real.sin θ ^ 2 = Real.cos θ ^ 2 := by
    have := Real.sin_sq_add_cos_sq θ
    linarith
  rw [hone, Real.sqrt_sq (le_of_lt hcos_pos)]
  rw [atan2_pos_x _ _ hcos_pos]
  rw [← Real.tan_eq_sin_div_cos]
  rw [Real.arctan_tan (by linarith [Real.pi_pos]) hθlt]
  rw [hθ]; ring

theorem haversine_far_gt :
    geofenceRadiusKm < haversineDistanceKm deviceFar institutionAnchor := by
  rw [haversine_far_eq]
  unfold geofenceRadiusKm
  nlinarith [Real.pi_gt_three]

/-- C5: the geofence gate allows a capture exactly when the haversine distance
to the anchor is at most the radius; the spec's far device (14.6014, 120.9842)
is rejected at radius 0.1 km while a device exactly at the anchor is accepted;
and an attempt with no fix or with a rejected fix opens no camera session and
leaves the attendance store untouched. -/
theorem c5_geofence_gate :
    (∀ device : GeoCoordinate, presenceAllowed device ↔
      haversineDistanceKm device institutionAnchor ≤ geofenceRadiusKm)
    ∧ ¬ presenceAllowed deviceFar
    ∧ presenceAllowed institutionAnchor
    ∧ (∀ (kind : EventKind) (st : CaptureState) (s : Store),
        handleOpenCamera none kind st s =
          (st, s, some CaptureError.locationUnavailable))
    ∧ (∀ (kind : EventKind) (st : CaptureState) (s : Store),
        handleOpenCamera (some deviceFar) kind st s =
          (st, s, some CaptureError.outsideGeofence)) := by
  refine ⟨fun device => not_lt, ?_, ?_, fun kind st s => rfl, ?_⟩
  · intro hno
    exact hno haversine_far_gt
  · intro hlt
    rw [haversine_anchor_eq] at hlt
    unfold geofenceRadiusKm at hlt
    norm_num at hlt
  · intro kind st s
    show (if geofenceRadiusKm < haversineDistanceKm deviceFar institutionAnchor
        then (st, s, some CaptureError.outsideGeofence)
        else ({ cameraOpen := true, activeCapture := some kind,
                capturedImage := none }, s, none))
      = (st, s, some CaptureError.outsideGeofence)
    rw [if_pos haversine_far_gt]

/-! ## Report aggregator (C7)

Embeds `reportData` of the AttendanceReport page (lines 109-214).  The page
compares dates by JS Date timestamps; on the ISO YYYY-MM-DD strings the store
holds, that ordering coincides with lexicographic string order, which is how
date ordering is embedded here. -/

/-- The employee directory row the report joins with. -/
structure Employee where
  employeeId : String
  fullName : String
  department : String
  position : String
  employmentType : Option String
deriving DecidableEq, Repr

/-- One formatted report row. -/
structure ReportRow where
  name : String
  type : String
  date : String
  signIn : String
  signOut : String
  status : String
  employeeId : String
deriving DecidableEq, Repr

/-- One department/date section. -/
structure ReportSection where
  department : String
  date : String
  rows : List ReportRow
deriving DecidableEq, Repr

/-- Lexicographic comparison of char lists by code point. -/
def charListLe : List Char → List Char → Bool
  | [], _ => true
  | _ :: _, [] => false
  | a :: as, b :: bs =>
    if a.toNat < b.toNat then true
    else if b.toNat < a.toNat then false
    else charListLe as bs

/-- Lexicographic string comparison; on valid ISO dates it coincides with the
JS Date-timestamp comparison the page performs. -/
def strLe (s t : String) : Bool := charListLe s.toList t.toList

theorem charListLe_total : ∀ xs ys : List Char,
    charListLe xs ys = true ∨ charListLe ys xs = true := by
  intro xs
  induction xs with
  | nil => intro ys; left; rfl
  | cons a as ih =>
    intro ys
    cases ys with
    | nil => right; rfl
    | cons b bs =>
      simp only [charListLe]
      rcases Nat.lt_trichotomy a.toNat b.toNat with h | h | h
      · left; simp [h]
      · have h1 : ¬ a.toNat < b.toNat := by omega
        have h2 : ¬ b.toNat < a.toNat := by omega
        rcases ih bs with hr | hr
        · left; simp [h1, h2, hr]
        · right; simp [h1, h2, hr]
      · right; simp [h]

theorem charListLe_trans : ∀ xs ys zs : List Char,
    charListLe xs ys = true → charListLe ys zs = true →
    charListLe xs zs = true := by
  intro xs
  induction xs with
  | nil => intro ys zs _ _; rfl
  | cons a as ih =>
    intro ys zs hxy hyz
    cases ys with
    | nil => exact absurd hxy (by simp [charListLe])
    | cons b bs =>
      cases zs with
      | nil => exact absurd hyz (by simp [charListLe])
      | cons c cs =>
        simp only [charListLe] at hxy hyz ⊢
        rcases Nat.lt_trichotomy a.toNat b.toNat with h1 | h1 | h1
        · rcases Nat.lt_trichotomy b.toNat c.toNat with h2 | h2 | h2
          · simp [show a.toNat < c.toNat by omega]
          · simp [show a.toNat < c.toNat by omega]
          · simp [h2, show ¬ b.toNat < c.toNat by omega] at hyz
        · rcases Nat.lt_trichotomy b.toNat c.toNat with h2 | h2 | h2
          · simp [show a.toNat < c.toNat by omega]
          · have hac1 : ¬ a.toNat < c.toNat := by omega
            have hac2 : ¬ c.toNat < a.toNat := by omega
            simp [show ¬ a.toNat < b.toNat by omega,
              show ¬ b.toNat < a.toNat by omega] at hxy
            simp [show ¬ b.toNat < c.toNat by omega,
              show ¬ c.toNat < b.toNat by omega] at hyz
            simp [hac1, hac2]
            exact ih bs cs hxy hyz
          · simp [h2, show ¬ b.toNat < c.toNat by omega] at hyz
        · simp [h1, show ¬ a.toNat < b.toNat by omega] at hxy

/-- Two-digit rendering of the minutes component, as the "HH:MM" string
carries it. -/
def pad2 (n : Nat) : String :=
  if n < 10 then "0" ++ toString n else toString n

/-- The `formatTime` helper of the page (lines 153-160): 12-hour clock with
AM/PM, `---------` for a missing time. -/
def formatTime (t : Option Time) : String :=
  match t with
  | none => "---------"
  | some t =>
    let ampm := if 12 ≤ t.hours then "PM" else "AM"
    let displayHour := if t.hours % 12 = 0 then 12 else t.hours % 12
    toString displayHour ++ ":" ++ pad2 t.minutes ++ " " ++ ampm

/-- The `statusMap` of the page (lines 145-151). -/
def statusBase (st : Status) : String :=
  match st with
  | .present => "Present"
  | .absent => "Absent"
  | .late => "Late"
  | .halfDay => "Half Day"
  | .leave => "Leave"

/-- The live minutes-late recomputation of the page (lines 162-174): whenever
a check-in exists and the persisted status is late or present, a positive
minutes-late renders as "Late (N mins)", a non-positive one falls back to
"Late" for a persisted late and to the mapped status otherwise. -/
def statusDisplay (att : AttendanceRecord) : String :=
  match att.checkIn with
  | some t =>
    if att.status = Status.late ∨ att.status = Status.present then
      if 0 < minutesLate t expectedArrival then
        "Late (" ++ toString (minutesLate t expectedArrival) ++ " mins)"
      else if att.status = Status.late then "Late"
      else statusBase att.status
    else statusBase att.status
  | none => statusBase att.status

/-- `toLocaleDateString` en-US with 2-digit month and day and `/` replaced by
`-` (line 185): an ISO YYYY-MM-DD date renders as MM-DD-YYYY (institution-local
time zone at or ahead of UTC assumed).  Non-ISO input is returned unchanged;
the page only formats stored, validated dates. -/
def formatDateDisplay (date : String) : String :=
  match date.toList with
  | [y1, y2, y3, y4, _, m1, m2, _, d1, d2] =>
    String.mk [m1, m2, '-', d1, d2, '-', y1, y2, y3, y4]
  | _ => date

/-- `employee.department || 'Unassigned'` (line 133). -/
def deptOf (emp : Employee) : String :=
  if emp.department = "" then "Unassigned" else emp.department

/-- Lines 176-180: employmentType defaulted to Regular and restricted to the
four valid types. -/
def employeeTypeOf (emp : Employee) : String :=
  let et := match emp.employmentType with
    | some s => if s = "" then "Regular" else s
    | none => "Regular"
  if et = "Regular" ∨ et = "Contractual" ∨ et = "Probationary"
      ∨ et = "Project-Based" then et else "Regular"

/-- The row pushed at lines 182-190. -/
def mkRow (emp : Employee) (att : AttendanceRecord) : ReportRow :=
  { name := emp.fullName
    type := employeeTypeOf emp
    date := formatDateDisplay att.date
    signIn := formatTime att.checkIn
    signOut := formatTime att.checkOut
    status := statusDisplay att
    employeeId := att.employeeId }

/-- The `employeeMap` lookup (line 124): a JS Map built from a list keeps the
last entry per key. -/
def empLookup (employees : List Employee) (id : String) : Option Employee :=
  employees.foldl (fun acc e => if e.employeeId == id then some e else acc) none

/-- The per-department date groups, in first-insertion order as a JS Map
enumerates them. -/
abbrev DateGroups := List (String × List ReportRow)

/-- The department groups, in first-insertion order. -/
abbrev DeptGroups := List (String × DateGroups)

/-- Append a row to the group of its date, creating the group at the end on
first appearance. -/
def pushDate (dgs : DateGroups) (date : String) (row : ReportRow) : DateGroups :=
  match dgs with
  | [] => [(date, [row])]
  | (d, rs) :: rest =>
    if d == date then (d, rs ++ [row]) :: rest
    else (d, rs) :: pushDate rest date row

/-- Append a row to the group of its department and date. -/
def pushDept (gs : DeptGroups) (dept date : String) (row : ReportRow) : DeptGroups :=
  match gs with
  | [] => [(dept, [(date, [row])])]
  | (dp, dgs) :: rest =>
    if dp == dept then (dp, pushDate dgs date row) :: rest
    else (dp, dgs) :: pushDept rest dept date row

/-- The grouping loop of lines 129-191: records whose employeeId resolves to
no employee are skipped. -/
def groupRecords (atts : List AttendanceRecord) (employees : List Employee) :
    DeptGroups :=
  atts.foldl (fun gs att =>
    match empLookup employees att.employeeId with
    | none => gs
    | some emp => pushDept gs (deptOf emp) att.date (mkRow emp att)) []

/-- Lines 194-199: flatten the nested maps into sections. -/
def sectionsOf (gs : DeptGroups) : List ReportSection :=
  gs.flatMap (fun p => p.2.map (fun q =>
    { department := p.1, date := q.1, rows := q.2 }))

/-- The date filter of lines 110-122: an inclusive range when both dates are
set, a single day when only the start date is set, everything otherwise. -/
def filterByRange (atts : List AttendanceRecord) (startDate endDate : String) :
    List AttendanceRecord :=
  if startDate ≠ "" ∧ endDate ≠ "" then
    atts.filter (fun att => strLe startDate att.date && strLe att.date endDate)
  else if startDate ≠ "" then
    atts.filter (fun att => att.date == startDate)
  else atts

/-- The sort order of line 202: newest section date first. -/
def sectionOrder (a b : ReportSection) : Prop := strLe b.date a.date = true

instance : DecidableRel sectionOrder := fun a b =>
  inferInstanceAs (Decidable (strLe b.date a.date = true))

instance : IsTotal ReportSection sectionOrder :=
  ⟨fun a b => charListLe_total b.date.toList a.date.toList⟩

instance : IsTrans ReportSection sectionOrder :=
  ⟨fun _ b _ hab hbc => charListLe_trans _ b.date.toList _ hbc hab⟩

/-- ASCII lowering, the page's `toLowerCase` on the data it holds. -/
def toLowerStr (s : String) : String := String.mk (s.toList.map Char.toLower)

/-- Contiguous-sublist test, the JS `String.includes`. -/
def listContainsSub (hay needle : List Char) : Bool :=
  match hay with
  | [] => needle.isEmpty
  | _ :: t => needle.isPrefixOf hay || listContainsSub t needle

/-- Case-insensitive containment on strings. -/
def containsSub (hay needle : String) : Bool :=
  listContainsSub hay.toList needle.toList

/-- The search predicate of lines 207-210. -/
def rowMatches (term : String) (r : ReportRow) : Bool :=
  containsSub (toLowerStr r.name) (toLowerStr term)
    || containsSub (toLowerStr r.employeeId) (toLowerStr term)

/-- The search filter of lines 205-211: keep matching rows, drop sections left
empty. -/
def applySearch (term : String) (sections : List ReportSection) :
    List ReportSection :=
  (sections.map (fun sec =>
    { sec with rows := sec.rows.filter (rowMatches term) })).filter
    (fun sec => !sec.rows.isEmpty)

/-- `reportData` end to end: filter by date, join and group, flatten, sort by
date descending, apply the search filter. -/
def buildReport (atts : List AttendanceRecord) (employees : List Employee)
    (startDate endDate searchTerm : String) : List ReportSection :=
  applySearch searchTerm
    (List.insertionSort sectionOrder
      (sectionsOf (groupRecords (filterByRange atts startDate endDate) employees)))

def empARecord : AttendanceRecord :=
  { employeeId := "empA", employeeName := "Alice Arga", date := "2025-04-01",
    checkIn := some (Time.mk 8 20), checkOut := none, status := Status.late,
    notes := none, checkInImage := none, checkOutImage := none,
    createdAt := 0, updatedAt := 0 }

def empBRecord : AttendanceRecord :=
  { employeeId := "empB", employeeName := "Bob Bula", date := "2025-04-01",
    checkIn := some (Time.mk 8 0), checkOut := none, status := Status.present,
    notes := none, checkInImage := none, checkOutImage := none,
    createdAt := 0, updatedAt := 0 }

def empARef : Employee :=
  { employeeId := "empA", fullName := "Alice Arga", department := "IT",
    position := "Teacher", employmentType := some "Regular" }

def empBRef : Employee :=
  { employeeId := "empB", fullName := "Bob Bula", department := "IT",
    position := "Clerk", employmentType := some "Regular" }

/-! ### Membership and sortedness lemmas for the report pipeline -/

/-- All rows held by a list of date groups. -/
def rowsOfDateGroups (dgs : DateGroups) : List ReportRow :=
  dgs.flatMap (fun q => q.2)

/-- All rows held by a list of department groups. -/
def rowsOfDeptGroups (gs : DeptGroups) : List ReportRow :=
  gs.flatMap (fun p => rowsOfDateGroups p.2)

theorem rowsOfDateGroups_cons (d : String) (rs : List ReportRow)
    (rest : DateGroups) :
    rowsOfDateGroups ((d, rs) :: rest) = rs ++ rowsOfDateGroups rest := by
  simp [rowsOfDateGroups]

theorem rowsOfDeptGroups_cons (dp : String) (dgs : DateGroups)
    (rest : DeptGroups) :
    rowsOfDeptGroups ((dp, dgs) :: rest) =
      rowsOfDateGroups dgs ++ rowsOfDeptGroups rest := by
  simp [rowsOfDeptGroups]

theorem mem_rowsOf_pushDate (dgs : DateGroups) (date : String)
    (row r : ReportRow) (h : r ∈ rowsOfDateGroups (pushDate dgs date row)) :
    r ∈ rowsOfDateGroups dgs ∨ r = row := by
  induction dgs with
  | nil =>
    simp [pushDate, rowsOfDateGroups] at h
    right; exact h
  | cons p rest ih =>
    obtain ⟨d, rs⟩ := p
    simp only [pushDate] at h
    by_cases hd : (d == date) = true
    · rw [if_pos hd] at h
      rw [rowsOfDateGroups_cons] at h
      rw [rowsOfDateGroups_cons]
      rcases List.mem_append.mp h with h1 | h1
      · rcases List.mem_append.mp h1 with h2 | h2
        · left; exact List.mem_append.mpr (Or.inl h2)
        · right; simpa using h2
      · left; exact List.mem_append.mpr (Or.inr h1)
    · rw [if_neg hd] at h
      rw [rowsOfDateGroups_cons] at h
      rw [rowsOfDateGroups_cons]
      rcases List.mem_append.mp h with h1 | h1
      · left; exact List.mem_append.mpr (Or.inl h1)
      · rcases ih h1 with h2 | h2
        · left; exact List.mem_append.mpr (Or.inr h2)
        · right; exact h2

theorem mem_rowsOf_pushDept (gs : DeptGroups) (dept date : String)
    (row r : ReportRow) (h : r ∈ rowsOfDeptGroups (pushDept gs dept date row)) :
    r ∈ rowsOfDeptGroups gs ∨ r = row := by
  induction gs with
  | nil =>
    simp [pushDept, rowsOfDeptGroups, rowsOfDateGroups] at h
    right; exact h
  | cons p rest ih =>
    obtain ⟨dp, dgs⟩ := p
    simp only [pushDept] at h
    by_cases hd : (dp == dept) = true
    · rw [if_pos hd] at h
      rw [rowsOfDeptGroups_cons] at h
      rw [rowsOfDeptGroups_cons]
      rcases List.mem_append.mp h with h1 | h1
      · rcases mem_rowsOf_pushDate dgs date row r h1 with h2 | h2
        · left; exact List.mem_append.mpr (Or.inl h2)
        · right; exact h2
      · left; exact List.mem_append.mpr (Or.inr h1)
    · rw [if_neg hd] at h
      rw [rowsOfDeptGroups_cons] at h
      rw [rowsOfDeptGroups_cons]
      rcases List.mem_append.mp h with h1 | h1
      · left; exact List.mem_append.mpr (Or.inl h1)
      · rcases ih h1 with h2 | h2
        · left; exact List.mem_append.mpr (Or.inr h2)
        · right; exact h2

theorem mem_rowsOf_groupRecords_aux (employees : List Employee) :
    ∀ (atts : List AttendanceRecord) (gs : DeptGroups) (r : ReportRow),
      r ∈ rowsOfDeptGroups (atts.foldl (fun gs att =>
        match empLookup employees att.employeeId with
        | none => gs
        | some emp => pushDept gs (deptOf emp) att.date (mkRow emp att)) gs) →
      r ∈ rowsOfDeptGroups gs
        ∨ ∃ att emp, empLookup employees att.employeeId = some emp
            ∧ r = mkRow emp att := by
  intro atts
  induction atts with
  | nil => intro gs r h; left; exact h
  | cons att rest ih =>
    intro gs r h
    rw [List.foldl_cons] at h
    cases hl : empLookup employees att.employeeId with
    | none =>
      rw [hl] at h
      exact ih _ r h
    | some emp =>
      rw [hl] at h
      rcases ih _ r h with h1 | h1
      · rcases mem_rowsOf_pushDept gs (deptOf emp) att.date (mkRow emp att) r h1
          with h2 | h2
        · left; exact h2
        · right; exact ⟨att, emp, hl, h2⟩
      · right; exact h1

theorem mem_rows_sectionsOf (gs : DeptGroups) (sec : ReportSection)
    (r : ReportRow) (hsec : sec ∈ sectionsOf gs) (hr : r ∈ sec.rows) :
    r ∈ rowsOfDeptGroups gs := by
  simp only [sectionsOf, List.mem_flatMap] at hsec
  obtain ⟨p, hp, hq⟩ := hsec
  simp only [List.mem_map] at hq
  obtain ⟨q, hq2, rfl⟩ := hq
  simp only [rowsOfDeptGroups, List.mem_flatMap]
  refine ⟨p, hp, ?_⟩
  simp only [rowsOfDateGroups, List.mem_flatMap]
  exact ⟨q, hq2, hr⟩

/-- If a section of the final report holds a row, that row came from a joined
record and a section of the unsorted, unsearched pipeline, and the row matches
the search term. -/
theorem buildReport_row_origin (atts : List AttendanceRecord)
    (employees : List Employee) (sd ed term : String) (sec : ReportSection)
    (row : ReportRow) (hsec : sec ∈ buildReport atts employees sd ed term)
    (hrow : row ∈ sec.rows) :
    (∃ att emp, empLookup employees att.employeeId = some emp
        ∧ row = mkRow emp att)
      ∧ rowMatches term row = true := by
  simp only [buildReport, applySearch] at hsec
  have hsec1 := (List.mem_filter.mp hsec).1
  simp only [List.mem_map] at hsec1
  obtain ⟨sec0, hsec0, rfl⟩ := hsec1
  simp only at hrow
  have hrow0 : row ∈ sec0.rows := List.mem_of_mem_filter hrow
  have hmatch : rowMatches term row = true := List.of_mem_filter hrow
  have hsec0m : sec0 ∈ sectionsOf
      (groupRecords (filterByRange atts sd ed) employees) :=
    (List.perm_insertionSort sectionOrder _).subset hsec0
  have hr := mem_rows_sectionsOf _ sec0 row hsec0m hrow0
  rcases mem_rowsOf_groupRecords_aux employees (filterByRange atts sd ed) [] row
      hr with h1 | h1
  · exact absurd h1 (by simp [rowsOfDeptGroups])
  · exact ⟨h1, hmatch⟩

/-- C7: on the two spec records (both resolving to department IT), the report
is exactly one IT section for 2025-04-01 whose two rows display
"Late (9 mins)" (recomputed live from the 08:20 check-in) and "Present";
moreover, for all inputs: every reported row resolves to an employee in the
directory (unresolvable records are excluded), sections are sorted by date
descending, every reported row matches the search term case-insensitively, and
no empty section survives. -/
theorem c7_report_pipeline :
    (buildReport [empARecord, empBRecord] [empARef, empBRef] "2025-04-01" "" "" =
      [{ department := "IT", date := "2025-04-01", rows :=
          [{ name := "Alice Arga", type := "Regular", date := "04-01-2025",
             signIn := "8:20 AM", signOut := "---------",
             status := "Late (9 mins)", employeeId := "empA" },
           { name := "Bob Bula", type := "Regular", date := "04-01-2025",
             signIn := "8:00 AM", signOut := "---------",
             status := "Present", employeeId := "empB" }] }])
    ∧ (∀ (atts : List AttendanceRecord) (employees : List Employee)
        (sd ed term : String) (sec : ReportSection) (row : ReportRow),
        sec ∈ buildReport atts employees sd ed term → row ∈ sec.rows →
        (empLookup employees row.employeeId).isSome = true)
    ∧ (∀ (atts : List AttendanceRecord) (employees : List Employee)
        (sd ed term : String),
        List.Pairwise (fun a b => strLe b.date a.date = true)
          (buildReport atts employees sd ed term))
    ∧ (∀ (atts : List AttendanceRecord) (employees : List Employee)
        (sd ed term : String) (sec : ReportSection) (row : ReportRow),
        sec ∈ buildReport atts employees sd ed term → row ∈ sec.rows →
        rowMatches term row = true)
    ∧ (∀ (atts : List AttendanceRecord) (employees : List Employee)
        (sd ed term : String) (sec : ReportSection),
        sec ∈ buildReport atts employees sd ed term → sec.rows ≠ []) := by
  refine ⟨by decide, ?_, ?_, ?_, ?_⟩
  · intro atts employees sd ed term sec row hsec hrow
    obtain ⟨⟨att, emp, hl, rfl⟩, _⟩ :=
      buildReport_row_origin atts employees sd ed term sec row hsec hrow
    simp [mkRow, hl]
  · intro atts employees sd ed term
    simp only [buildReport, applySearch]
    apply List.Pairwise.sublist (List.filter_sublist _)
    rw [List.pairwise_map]
    exact List.sorted_insertionSort sectionOrder _
  · intro atts employees sd ed term sec row hsec hrow
    exact (buildReport_row_origin atts employees sd ed term sec row hsec hrow).2
  · intro atts employees sd ed term sec hsec
    simp only [buildReport, applySearch] at hsec
    have := (List.mem_filter.mp hsec).2
    simpa [List.isEmpty_iff] using this

/-- C7 witness: the general conjuncts instantiated at the concrete example
section and its first row. -/
theorem c7_report_pipeline_witness :
    (empLookup [empARef, empBRef] "empA").isSome = true
    ∧ rowMatches ""
        { name := "Alice Arga", type := "Regular", date := "04-01-2025",
          signIn := "8:20 AM", signOut := "---------",
          status := "Late (9 mins)", employeeId := "empA" } = true :=
  ⟨c7_report_pipeline.2.1 [empARecord, empBRecord] [empARef, empBRef]
      "2025-04-01" "" ""
      { department := "IT", date := "2025-04-01", rows :=
          [{ name := "Alice Arga", type := "Regular", date := "04-01-2025",
             signIn := "8:20 AM", signOut := "---------",
             status := "Late (9 mins)", employeeId := "empA" },
           { name := "Bob Bula", type := "Regular", date := "04-01-2025",
             signIn := "8:00 AM", signOut := "---------",
             status := "Present", employeeId := "empB" }] }
      { name := "Alice Arga", type := "Regular", date := "04-01-2025",
        signIn := "8:20 AM", signOut := "---------",
        status := "Late (9 mins)", employeeId := "empA" }
      (by decide) (by decide),
   c7_report_pipeline.2.2.2.1 [empARecord, empBRecord] [empARef, empBRef]
      "2025-04-01" "" ""
      { department := "IT", date := "2025-04-01", rows :=
          [{ name := "Alice Arga", type := "Regular", date := "04-01-2025",
             signIn := "8:20 AM", signOut := "---------",
             status := "Late (9 mins)", employeeId := "empA" },
           { name := "Bob Bula", type := "Regular", date := "04-01-2025",
             signIn := "8:00 AM", signOut := "---------",
             status := "Present", employeeId := "empB" }] }
      { name := "Alice Arga", type := "Regular", date := "04-01-2025",
        signIn := "8:20 AM", signOut := "---------",
        status := "Late (9 mins)", employeeId := "empA" }
      (by decide) (by decide)⟩

/-! ## Report export (C8)

Embeds the CSV generation of `handleGenerate` (lines 239-251) and the
per-section Export CSV handler (lines 537-545): a fixed header line followed by
one double-quoted comma-separated row per record, joined by newlines.  The text
is built over character lists and wrapped into a `String`.  The reader
(`parseCsvLine`, `parseSectionCsv`) is modelled from the spec: the repository
contains no CSV reader, so the re-parsing direction of the round-trip property
is a strict reader of exactly the produced quoted format. -/

def joinSep (sep : List Char) : List (List Char) → List Char
  | [] => []
  | [x] => x
  | x :: y :: rest => x ++ sep ++ joinSep sep (y :: rest)

def quoteField (f : List Char) : List Char := '"' :: f ++ ['"']

def csvLineCh (fields : List (List Char)) : List Char :=
  joinSep [','] (fields.map quoteField)

def splitOnNl (xs : List Char) : List (List Char) :=
  match xs with
  | [] => [[]]
  | c :: rest =>
    match splitOnNl rest with
    | [] => [[]]
    | l :: ls => if c = '\n' then [] :: l :: ls else (c :: l) :: ls

inductive CsvState where
  | expectQuote
  | inField
  | afterField

def parseCsvLineAux : List Char → CsvState → List Char → List (List Char) →
    Option (List (List Char))
  | [], .afterField, _, acc => some acc.reverse
  | [], _, _, _ => none
  | c :: rest, .expectQuote, _, acc =>
    if c = '"' then parseCsvLineAux rest .inField [] acc else none
  | c :: rest, .inField, cur, acc =>
    if c = '"' then parseCsvLineAux rest .afterField [] (cur.reverse :: acc)
    else parseCsvLineAux rest .inField (c :: cur) acc
  | c :: rest, .afterField, _, acc =>
    if c = ',' then parseCsvLineAux rest .expectQuote [] acc else none

def parseCsvLine (l : List Char) : Option (List (List Char)) :=
  parseCsvLineAux l .expectQuote [] []

theorem parse_inField (f : List Char) (rest cur : List Char)
    (acc : List (List Char)) (hf : '"' ∉ f) :
    parseCsvLineAux (f ++ '"' :: rest) CsvState.inField cur acc
      = parseCsvLineAux rest CsvState.afterField []
          ((cur.reverse ++ f) :: acc) := by
  induction f generalizing cur with
  | nil => simp [parseCsvLineAux]
  | cons c cs ih =>
    have hc : ¬ c = '"' := fun h => hf (h ▸ List.mem_cons_self c cs)
    simp only [List.cons_append, parseCsvLineAux, if_neg hc, List.append_eq]
    rw [ih (c :: cur) (fun h => hf (List.mem_cons_of_mem c h))]
    simp

theorem parse_line_aux (fields : List (List Char)) (acc : List (List Char))
    (hq : ∀ f ∈ fields, '"' ∉ f) (hne : fields ≠ []) :
    parseCsvLineAux (csvLineCh fields) CsvState.expectQuote [] acc
      = some (acc.reverse ++ fields) := by
  induction fields generalizing acc with
  | nil => exact absurd rfl hne
  | cons f fs ih =>
    cases fs with
    | nil =>
      show parseCsvLineAux (quoteField f) CsvState.expectQuote [] acc = _
      show parseCsvLineAux ('"' :: (f ++ ['"'])) CsvState.expectQuote [] acc = _
      simp only [parseCsvLineAux, if_pos rfl]
      rw [show f ++ ['"'] = f ++ '"' :: [] from rfl]
      rw [parse_inField f [] [] acc (hq f (List.mem_cons_self f []))]
      simp [parseCsvLineAux]
    | cons g gs =>
      have hjoin : csvLineCh (f :: g :: gs)
          = '"' :: (f ++ '"' :: ',' :: csvLineCh (g :: gs)) := by
        show quoteField f ++ [','] ++ csvLineCh (g :: gs) = _
        simp [quoteField]
      rw [hjoin]
      simp only [parseCsvLineAux, if_pos rfl]
      rw [parse_inField f (',' :: csvLineCh (g :: gs)) [] acc
        (hq f (List.mem_cons_self f _))]
      simp only [parseCsvLineAux, if_pos rfl, List.reverse_nil, List.nil_append]
      rw [ih (f :: acc) (fun x hx => hq x (List.mem_cons_of_mem f hx))
        (by simp)]
      simp

theorem splitOnNl_ne_nil (xs : List Char) : splitOnNl xs ≠ [] := by
  cases xs with
  | nil => simp [splitOnNl]
  | cons c rest =>
    simp only [splitOnNl]
    cases h : splitOnNl rest with
    | nil => simp
    | cons l ls =>
      by_cases hc : c = '\n' <;> simp [hc]

theorem splitOnNl_no_nl (l : List Char) (h : '\n' ∉ l) :
    splitOnNl l = [l] := by
  induction l with
  | nil => rfl
  | cons c cs ih =>
    have hc : ¬ c = '\n' := fun hx => h (hx ▸ List.mem_cons_self c cs)
    simp only [splitOnNl]
    rw [ih (fun hx => h (List.mem_cons_of_mem c hx))]
    simp [hc]

theorem splitOnNl_append_nl (l rest : List Char) (h : '\n' ∉ l) :
    splitOnNl (l ++ '\n' :: rest) = l :: splitOnNl rest := by
  induction l with
  | nil =>
    simp only [List.nil_append, splitOnNl]
    cases hx : splitOnNl rest with
    | nil => exact absurd hx (splitOnNl_ne_nil rest)
    | cons a as => simp
  | cons c cs ih =>
    have hc : ¬ c = '\n' := fun hx => h (hx ▸ List.mem_cons_self c cs)
    simp only [List.cons_append, splitOnNl, List.append_eq]
    rw [ih (fun hx => h (List.mem_cons_of_mem c hx))]
    simp [hc]

theorem splitOnNl_joinSep (lines : List (List Char))
    (h : ∀ l ∈ lines, '\n' ∉ l) (hne : lines ≠ []) :
    splitOnNl (joinSep ['\n'] lines) = lines := by
  induction lines with
  | nil => exact absurd rfl hne
  | cons l ls ih =>
    cases ls with
    | nil => exact splitOnNl_no_nl l (h l (List.mem_cons_self l []))
    | cons m ms =>
      have hjoin : joinSep ['\n'] (l :: m :: ms)
          = l ++ '\n' :: joinSep ['\n'] (m :: ms) := by
        show l ++ ['\n'] ++ joinSep ['\n'] (m :: ms) = _
        simp
      rw [hjoin, splitOnNl_append_nl l _ (h l (List.mem_cons_self l _))]
      rw [ih (fun x hx => h x (List.mem_cons_of_mem l hx)) (by simp)]

theorem csvLineCh_no_nl (fields : List (List Char))
    (h : ∀ f ∈ fields, '\n' ∉ f) : '\n' ∉ csvLineCh fields := by
  induction fields with
  | nil => simp [csvLineCh, joinSep]
  | cons f fs ih =>
    cases fs with
    | nil =>
      show '\n' ∉ quoteField f
      intro hx
      rcases List.mem_cons.mp hx with hx | hx
      · exact absurd hx (by decide)
      · rcases List.mem_append.mp hx with hx | hx
        · exact h f (List.mem_cons_self f []) hx
        · rcases List.mem_singleton.mp hx with hx
          exact absurd hx (by decide)
    | cons g gs =>
      have hjoin : csvLineCh (f :: g :: gs)
          = quoteField f ++ [','] ++ csvLineCh (g :: gs) := rfl
      rw [hjoin]
      intro hx
      rcases List.mem_append.mp hx with hx | hx
      · rcases List.mem_append.mp hx with hx | hx
        · rcases List.mem_cons.mp hx with hx | hx
          · exact absurd hx (by decide)
          · rcases List.mem_append.mp hx with hx | hx
            · exact h f (List.mem_cons_self f _) hx
            · rcases List.mem_singleton.mp hx with hx
              exact absurd hx (by decide)
        · rcases List.mem_singleton.mp hx with hx
          exact absurd hx (by decide)
      · exact ih (fun x hxm => h x (List.mem_cons_of_mem f hxm)) hx

theorem mapM_parse (rows : List (List (List Char)))
    (h : ∀ fs ∈ rows, (∀ f ∈ fs, '"' ∉ f) ∧ fs ≠ []) :
    (rows.map csvLineCh).mapM parseCsvLine = some rows := by
  induction rows with
  | nil => rfl
  | cons fs rest ih =>
    have hfs := h fs (List.mem_cons_self fs rest)
    have hline : parseCsvLine (csvLineCh fs) = some fs := by
      unfold parseCsvLine
      rw [parse_line_aux fs [] hfs.1 hfs.2]
      simp
    simp only [List.map_cons, List.mapM_cons, hline]
    rw [ih (fun x hx => h x (List.mem_cons_of_mem fs hx))]
    rfl

theorem head_splitOnNl_joinSep (l : List Char) (ls : List (List Char))
    (h : '\n' ∉ l) :
    (splitOnNl (joinSep ['\n'] (l :: ls))).head? = some l := by
  cases ls with
  | nil =>
    show (splitOnNl l).head? = some l
    rw [splitOnNl_no_nl l h]
    rfl
  | cons m ms =>
    have hjoin : joinSep ['\n'] (l :: m :: ms)
        = l ++ '\n' :: joinSep ['\n'] (m :: ms) := by
      show l ++ ['\n'] ++ joinSep ['\n'] (m :: ms) = _
      simp
    rw [hjoin, splitOnNl_append_nl l _ h]
    rfl

theorem stringMk_toList (s : String) : String.mk s.toList = s := rfl


/-- The full-report header line of `handleGenerate` (line 241). -/
def fullReportHeader : String :=
  "Department,Date,Employee Name,Employee ID,Employee Type,Sign In Time,Sign Out Time,Attendance Status"

/-- The per-section header line of the Export CSV handler (line 539). -/
def sectionHeader : String :=
  "Employee Name,Employee ID,Employee Type,Date,Sign In Time,Sign Out Time,Attendance Status"

/-- The field list of one row of the per-section export (line 542). -/
def sectionRowFields (r : ReportRow) : List String :=
  [r.name, r.employeeId, r.type, r.date, r.signIn, r.signOut, r.status]

/-- The field list of one row of the full-report export (line 246). -/
def fullRowFields (sec : ReportSection) (r : ReportRow) : List String :=
  [sec.department, sec.date, r.name, r.employeeId, r.type, r.signIn,
   r.signOut, r.status]

/-- The per-section export text. -/
def sectionCsv (sec : ReportSection) : String :=
  String.mk (joinSep ['\n'] (sectionHeader.toList ::
    sec.rows.map (fun r => csvLineCh ((sectionRowFields r).map String.toList))))

/-- The full-report export text. -/
def fullReportCsv (sections : List ReportSection) : String :=
  String.mk (joinSep ['\n'] (fullReportHeader.toList ::
    sections.flatMap (fun sec =>
      sec.rows.map (fun r => csvLineCh ((fullRowFields sec r).map String.toList)))))

/-- Modelled from the spec: re-parse exported per-section text — split into
lines, check the header, read each row line strictly. -/
def parseSectionCsv (text : String) : Option (List (List String)) :=
  match splitOnNl text.toList with
  | [] => none
  | header :: lines =>
    if header = sectionHeader.toList then
      (lines.mapM parseCsvLine).map (fun rows =>
        rows.map (fun fs => fs.map String.mk))
    else none

/-- A report row whose name carries a double quote: serialization produces a
malformed line that no reader of the quoted format can recover. -/
def quoteRow : ReportRow :=
  { name := "A\"B", type := "Regular", date := "04-01-2025",
    signIn := "8:20 AM", signOut := "---------", status := "Present",
    employeeId := "empQ" }

/-- The section exhibiting the failure. -/
def quoteSection : ReportSection :=
  { department := "IT", date := "2025-04-01", rows := [quoteRow] }

set_option maxRecDepth 8192 in
/-- C8 counterexample: the export writes fields between double quotes with no
escaping, so a section whose row holds a double quote in a field does not
round-trip — re-parsing its export fails instead of recovering its one row. -/
theorem c8_counterexample :
    parseSectionCsv (sectionCsv quoteSection) = none
    ∧ quoteSection.rows.length = 1 := by
  exact ⟨by decide, rfl⟩

/-- C8 amended: the full-report export's first line is exactly the fixed
header `Department,Date,Employee Name,Employee ID,Employee Type,Sign In Time,
Sign Out Time,Attendance Status`; and for every section whose fields contain
no double quote and no newline, re-parsing the exported text recovers exactly
the serialized field values of its rows (hence the same row count). -/
theorem c8_export_roundtrip :
    (∀ sections : List ReportSection,
      (splitOnNl (fullReportCsv sections).toList).head? =
        some fullReportHeader.toList)
    ∧ fullReportHeader =
        "Department,Date,Employee Name,Employee ID,Employee Type,Sign In Time,Sign Out Time,Attendance Status"
    ∧ (∀ sec : ReportSection,
      (∀ row ∈ sec.rows, ∀ f ∈ sectionRowFields row,
        '\"' ∉ f.toList ∧ '\n' ∉ f.toList) →
      parseSectionCsv (sectionCsv sec) = some (sec.rows.map sectionRowFields)) := by
  refine ⟨?_, rfl, ?_⟩
  · intro sections
    exact head_splitOnNl_joinSep _ _ (by decide)
  · intro sec hclean
    unfold parseSectionCsv sectionCsv
    rw [show (String.mk (joinSep ['\n'] (sectionHeader.toList :: sec.rows.map (fun r => csvLineCh ((sectionRowFields r).map String.toList))))).toList = joinSep ['\n'] (sectionHeader.toList :: sec.rows.map (fun r => csvLineCh ((sectionRowFields r).map String.toList))) from rfl]
    rw [splitOnNl_joinSep _ ?hnl (by simp)]
    case hnl =>
      intro l hl
      rcases List.mem_cons.mp hl with hl | hl
      · subst hl; decide
      · simp only [List.mem_map] at hl
        obtain ⟨row, hrow, rfl⟩ := hl
        apply csvLineCh_no_nl
        intro f hf
        simp only [List.mem_map] at hf
        obtain ⟨fs, hfs, rfl⟩ := hf
        exact (hclean row hrow fs hfs).2
    show (if sectionHeader.toList = sectionHeader.toList then
        Option.map (fun rows => rows.map (fun fs => fs.map String.mk))
          ((sec.rows.map
            (fun r => csvLineCh ((sectionRowFields r).map String.toList))).mapM
              parseCsvLine)
      else none) = _
    rw [if_pos rfl]
    rw [show (sec.rows.map
        (fun r => csvLineCh ((sectionRowFields r).map String.toList)))
      = ((sec.rows.map
          (fun r => (sectionRowFields r).map String.toList)).map csvLineCh)
      from by rw [List.map_map]; rfl]
    rw [mapM_parse _ ?hrows]
    case hrows =>
      intro fs hfs
      simp only [List.mem_map] at hfs
      obtain ⟨row, hrow, rfl⟩ := hfs
      constructor
      · intro f hf
        simp only [List.mem_map] at hf
        obtain ⟨g, hg, rfl⟩ := hf
        exact (hclean row hrow g hg).1
      · simp [sectionRowFields]
    refine congrArg some ?_
    show List.map (fun fs => List.map String.mk fs)
        (List.map (fun r => List.map String.toList (sectionRowFields r)) sec.rows)
      = List.map sectionRowFields sec.rows
    rw [List.map_map]
    refine List.map_congr_left ?_
    intro a _
    simp [Function.comp_def, List.map_map, stringMk_toList]

/-- C8 witness: a clean concrete section round-trips exactly. -/
theorem c8_export_roundtrip_witness :
    parseSectionCsv (sectionCsv
      { department := "IT", date := "2025-04-01", rows :=
          [{ name := "Alice Arga", type := "Regular", date := "04-01-2025",
             signIn := "8:20 AM", signOut := "---------",
             status := "Late (9 mins)", employeeId := "empA" }] }) =
      some [["Alice Arga", "empA", "Regular", "04-01-2025", "8:20 AM",
             "---------", "Late (9 mins)"]] :=
  c8_export_roundtrip.2.2
    { department := "IT", date := "2025-04-01", rows :=
        [{ name := "Alice Arga", type := "Regular", date := "04-01-2025",
           signIn := "8:20 AM", signOut := "---------",
           status := "Late (9 mins)", employeeId := "empA" }] }
    (by decide)

end Attendance
